import Mathlib

/-!
Verification of the Portage remap library against its specification.

Each section embeds one component of the source tree as executable Lean
definitions (machine reals are modelled by exact rationals, fallible code
by `Except`/`Option`) and proves the specified properties about them.
-/

namespace Portage

/-! ### 1st-order remap (src/src/remap/remap_1st_order.h)

`Remap_1stOrder::operator()` receives a pair of a vector of source entity
indices and a vector of weight vectors.  It returns 0 on an empty source
list or on a weight list shorter than the source list; otherwise it
accumulates `source_vals_[srccell] * pair_weights[0]` and the sum of the
0th-moment weights, and returns their quotient. -/

/-- The 0th-moment component `pair_weights[0]` of a weight vector. -/
def w0 (w : List ℚ) : ℚ := w.headD 0

/-- Shallow embedding of `Remap_1stOrder::operator()`:
`sourceVals` is the `source_vals_` array, `sourceCells` the vector of
contributing source entities, `weights` the vector of weight vectors. -/
def remap1stOrder (sourceVals : ℤ → ℚ) (sourceCells : List ℤ)
    (weights : List (List ℚ)) : ℚ :=
  if sourceCells.length = 0 then 0
  else if weights.length < sourceCells.length then 0
  else
    let pairs := sourceCells.zip weights
    let val := (pairs.map fun p => sourceVals p.1 * w0 p.2).sum
    let sumofweights := (pairs.map fun p => w0 p.2).sum
    val / sumofweights

/-! ### 2D cell-centered swept-face intersector
(src/portage/intersect/intersect_swept_faces.h, specialization
`IntersectSweptFace<2, CELL>`)

The mesh wrappers are modelled by an abstract record of the queries the
intersector performs.  Source and target meshes share the topology (the
code asserts identical face and node indices); they differ only in node
coordinates. -/

/-- Mesh queries used by the 2D swept-face intersector. -/
structure SweptMesh2D where
  /-- `cell_get_faces_and_dirs`: faces (edges) of a cell with directions. -/
  cellFaces : ℤ → List (ℕ × ℤ)
  /-- `face_get_nodes`: the nodes of a face. -/
  faceNodes : ℕ → List ℕ
  /-- `face_get_cells` on the source mesh: incident cells of a face. -/
  faceCells : ℕ → List ℤ
  /-- `node_get_coordinates` on the source mesh. -/
  srcCoord : ℕ → ℚ × ℚ
  /-- `node_get_coordinates` on the target mesh. -/
  tgtCoord : ℕ → ℚ × ℚ

/-- Error outcomes of the swept-face intersector: the code reports the
message on `stderr`, clears the accumulated moments, and returns at once,
so the caller receives no weights from the failed cell. -/
inductive SweptError where
  | twistedFace
  | invalidStencil
deriving DecidableEq, Repr

/-- `get_face_incident_neigh`: the cell on the other side of `face`, or
-1 unless the face has exactly two incident cells. -/
def get_face_incident_neigh (m : SweptMesh2D) (cell : ℤ) (face : ℕ) : ℤ :=
  let facecells := m.faceCells face
  if facecells.length = 2 then
    let index := if facecells.headD 0 = cell then 1 else 0
    facecells.getD index 0
  else -1

/-- Step 1 of the loop body: the four corners a, b, c, d of the swept
polygon, ordered by the edge direction. -/
def sweptQuad (m : SweptMesh2D) (edge : ℕ) (dir : ℤ) :
    (ℚ × ℚ) × (ℚ × ℚ) × (ℚ × ℚ) × (ℚ × ℚ) :=
  let nodes := m.faceNodes edge
  let n0 := nodes.getD 0 0
  let n1 := nodes.getD 1 0
  if dir > 0 then
    (m.srcCoord n1, m.srcCoord n0, m.tgtCoord n0, m.tgtCoord n1)
  else
    (m.srcCoord n0, m.srcCoord n1, m.tgtCoord n1, m.tgtCoord n0)

/-- Twice the signed area of triangle (a, b, d), written as in the code. -/
def sweptDet0 (a b d : ℚ × ℚ) : ℚ :=
  a.1 * b.2 - a.1 * d.2 - b.1 * a.2 + b.1 * d.2 + d.1 * a.2 - d.1 * b.2

/-- Twice the signed area of triangle (b, c, d), written as in the code. -/
def sweptDet1 (b c d : ℚ × ℚ) : ℚ :=
  b.1 * c.2 - b.1 * d.2 - c.1 * b.2 + c.1 * d.2 + d.1 * b.2 - d.1 * c.2

/-- The two triangle determinants `det[0]`, `det[1]` of a swept polygon. -/
def sweptDets (m : SweptMesh2D) (edge : ℕ) (dir : ℤ) : ℚ × ℚ :=
  let q := sweptQuad m edge dir
  (sweptDet0 q.1 q.2.1 q.2.2.2, sweptDet1 q.2.1 q.2.2.1 q.2.2.2)

/-- The signed area `0.5 * (det[0] + det[1])` of a swept polygon. -/
def sweptArea (m : SweptMesh2D) (edge : ℕ) (dir : ℤ) : ℚ :=
  ((sweptDets m edge dir).1 + (sweptDets m edge dir).2) / 2

/-- Step 3 of the loop body: the centroid as the intersection point of the
diagonals, left at the value-initialized (0, 0) when the diagonals are
colinear or their intersection parameters fall outside [0, 1]. -/
def sweptCentroid (a b c d : ℚ × ℚ) : ℚ × ℚ :=
  let denom := (d.1 - b.1) * (a.2 - c.2) - (d.2 - b.2) * (a.1 - c.1)
  if 0 < |denom| then
    let t := |((b.2 - d.2) * (a.1 - b.1) + (d.1 - b.1) * (a.2 - b.2)) / denom|
    let s := |((a.2 - c.2) * (a.1 - b.1) + (a.1 - c.1) * (a.2 - b.2)) / denom|
    if 0 ≤ t ∧ t ≤ 1 ∧ 0 ≤ s ∧ s ≤ 1 then
      (a.1 + t * (c.1 - a.1), a.2 + t * (c.2 - a.2))
    else (0, 0)
  else (0, 0)

/-- The moment vector `[area, area·cx, area·cy]` of a swept polygon. -/
def sweptMoment (m : SweptMesh2D) (edge : ℕ) (dir : ℤ) : List ℚ :=
  let q := sweptQuad m edge dir
  let area := sweptArea m edge dir
  let cen := sweptCentroid q.1 q.2.1 q.2.2.1 q.2.2.2
  [area, area * cen.1, area * cen.2]

/-- One iteration of the loop over the faces of the target cell:
`Except.error` models the clear-and-return error paths, `Except.ok none`
the boundary skip, and `Except.ok (some w)` an appended weight. -/
def sweptFaceStep (m : SweptMesh2D) (source_id : ℤ) (stencil : List ℤ)
    (edge : ℕ) (dir : ℤ) : Except SweptError (Option (ℤ × List ℚ)) :=
  let dets := sweptDets m edge dir
  if ¬(0 ≤ dets.1 ∧ 0 ≤ dets.2) ∧ ¬(dets.1 < 0 ∧ dets.2 < 0) then
    Except.error SweptError.twistedFace
  else if sweptArea m edge dir < 0 then
    Except.ok (some (source_id, sweptMoment m edge dir))
  else
    let neigh := get_face_incident_neigh m source_id edge
    if neigh < 0 then Except.ok none
    else if neigh ∉ stencil then Except.error SweptError.invalidStencil
    else Except.ok (some (neigh, sweptMoment m edge dir))

/-- The loop of `IntersectSweptFace<2, CELL>::operator()` over the faces
of the cell; an error on any face discards all accumulated moments. -/
def sweptFacesLoop (m : SweptMesh2D) (source_id : ℤ) (stencil : List ℤ) :
    List (ℕ × ℤ) → Except SweptError (List (ℤ × List ℚ))
  | [] => Except.ok []
  | ed :: rest =>
    match sweptFaceStep m source_id stencil ed.1 ed.2 with
    | Except.error e => Except.error e
    | Except.ok none => sweptFacesLoop m source_id stencil rest
    | Except.ok (some w) =>
      match sweptFacesLoop m source_id stencil rest with
      | Except.error e => Except.error e
      | Except.ok ws => Except.ok (w :: ws)

/-- `IntersectSweptFace<2, CELL>::operator()` in the single-material
case: the source cell has the same id as the target cell. -/
def intersectSweptFace2D (m : SweptMesh2D) (target_id : ℤ)
    (stencil : List ℤ) : Except SweptError (List (ℤ × List ℚ)) :=
  sweptFacesLoop m target_id stencil (m.cellFaces target_id)

/-- Concrete mesh with one twisted swept face: the target positions of the
edge's endpoints cross over the source positions. -/
def wtwist : SweptMesh2D where
  cellFaces := fun c => if c = 0 then [(0, -1)] else []
  faceNodes := fun _ => [0, 1]
  faceCells := fun _ => [0]
  srcCoord := fun n => if n = 0 then (0, 0) else (1, 0)
  tgtCoord := fun n => if n = 0 then (1, 1) else (0, 1)

/-- Concrete mesh exercising the three routing cases: edge 0 sweeps
inward (negative area), edge 1 sweeps outward towards neighbor cell 9,
edge 2 sweeps outward across a boundary face. -/
def wroute : SweptMesh2D where
  cellFaces := fun c => if c = 0 then [(0, -1), (1, -1), (2, -1)] else []
  faceNodes := fun f => if f = 0 then [0, 1] else if f = 1 then [2, 3]
    else [4, 5]
  faceCells := fun f => if f = 0 then [0, 1] else if f = 1 then [0, 9]
    else [0]
  srcCoord := fun n => if n % 2 = 0 then (0, 0) else (1, 0)
  tgtCoord := fun n =>
    if n = 0 then (0, -1) else if n = 1 then (1, -1)
    else if n = 2 then (0, 1) else if n = 3 then (1, 1)
    else if n = 4 then (0, 1) else (1, 1)

/-! ### Distributor (src/portage/distributed/mpi_bounding_boxes.h)

`MPI_Bounding_Boxes::distribute` offsets both its own source bounding box
and every peer's target bounding box inward by
`2 * std::numeric_limits<double>::epsilon()` on each face and marks
`sendFlags[i]` from a per-axis interval test.  A bounding box is modelled
as a list of (min, max) pairs, one per coordinate axis; the machine
epsilon is an abstract positive rational. -/

/-- An interval (box face pair) moved inward by the fudge offset. -/
def shrinkInterval (off : ℚ) (i : ℚ × ℚ) : ℚ × ℚ := (i.1 + off, i.2 - off)

/-- The send-flag computation of `distribute` for one peer rank: for each
axis `k`, `min1/max1` come from the peer's target box and `min2/max2`
from this rank's source box, all offset inward by `boxOffset`. -/
def sendFlag (boxOffset : ℚ) (sourceBox targetBox : List (ℚ × ℚ)) : Bool :=
  (targetBox.zip sourceBox).all fun p =>
    let min1 := p.1.1 + boxOffset
    let max1 := p.1.2 - boxOffset
    let min2 := p.2.1 + boxOffset
    let max2 := p.2.2 - boxOffset
    decide ((min1 ≤ min2 ∧ min2 ≤ max1) ∨ (min2 ≤ min1 ∧ min1 ≤ max2))

/-- Two closed intervals share a point. -/
def intervalsOverlap (i1 i2 : ℚ × ℚ) : Prop :=
  ∃ x, i1.1 ≤ x ∧ x ≤ i1.2 ∧ i2.1 ≤ x ∧ x ≤ i2.2

/-- Association-list lookup modelling `std::map::find`. -/
def lookupKey {α β : Type} [DecidableEq α] : List (α × β) → α → Option β
  | [], _ => none
  | kv :: rest, a => if kv.1 = a then some kv.2 else lookupKey rest a

/-- The `cellUniqueRep` loop of `distribute`: position `i` receives the
index of the first occurrence of `newCellGlobalIds[i]`, via the running
map `globalCellMap`. -/
def cellUniqueRepAux (gmap : List (ℤ × ℕ)) : List ℤ → ℕ → List ℕ
  | [], _ => []
  | g :: rest, i =>
    match lookupKey gmap g with
    | some j => j :: cellUniqueRepAux gmap rest (i + 1)
    | none => i :: cellUniqueRepAux ((g, i) :: gmap) rest (i + 1)

/-- `cellUniqueRep` built from the received global cell ids. -/
def cellUniqueRep (gids : List ℤ) : List ℕ := cellUniqueRepAux [] gids 0

/-- The material-cell fix-up loop of `distribute`: per rank, each received
material-cell index is offset by that rank's cell offset and mapped
through `cellUniqueRep`; the rank offsets are the partial sums of the
cell receive counts, and each rank consumes `matRecvCounts[rank]`
positions of the running counter.  Per C++17 sequencing of
`a[rc++] = uniq[a[rc]]`, the index is read before the increment. -/
def fixMaterialCells (uniq : List ℕ) :
    List ℕ → List ℕ → ℕ → List ℕ → List ℕ
  | cr :: crs, mr :: mrs, off, cells =>
      (cells.take mr).map (fun c => uniq.getD (c + off) 0)
        ++ fixMaterialCells uniq crs mrs (off + cr) (cells.drop mr)
  | _, _, _, cells => cells

/-- The material reconciliation of `distribute`: build `cellUniqueRep`
from the received global ids, then rewrite the concatenated material-cell
list rank by rank. -/
def distributeMaterialCells (gids : List ℤ)
    (cellRecvCounts matRecvCounts : List ℕ)
    (all_material_cells : List ℕ) : List ℕ :=
  fixMaterialCells (cellUniqueRep gids) cellRecvCounts matRecvCounts 0
    all_material_cells

/-! ### Reference applications (src/app/main.cc,
src/app/momentumapp/momentumapp.cc)

Only the argument-validation prefix of each `main` decides the exit codes
named by the specification; `AppExit.proceed` stands for falling through
to the remap run (which returns 0 at the end of `main`). -/

/-- Outcome of a `main` argument check. -/
inductive AppExit where
  | exit (code : ℕ)
  | proceed
deriving DecidableEq, Repr

/-- `main` of portageapp (src/app/main.cc): with `argc <= 2` it prints
the usage text and returns 0. -/
def portageappMain (argc : ℕ) : AppExit :=
  if argc ≤ 2 then AppExit.exit 0 else AppExit.proceed

/-- `SGH = 1` (src/app/momentumapp/momentumapp.cc). -/
def SGH : ℤ := 1

/-- `CCH = 2` (src/app/momentumapp/momentumapp.cc). -/
def CCH : ℤ := 2

/-- `main` of momentumapp: returns 1 with fewer than 7 arguments or when
`method`, `ini_density` or `ini_velocity` is out of range. -/
def momentumappMain (argc : ℕ)
    (method ini_density ini_velocity : ℤ) : AppExit :=
  if argc < 7 then AppExit.exit 1
  else if (method ≠ SGH ∧ method ≠ CCH)
      ∨ (ini_density < 0 ∨ ini_density > 2)
      ∨ (ini_velocity < 0 ∨ ini_velocity > 3) then AppExit.exit 1
  else AppExit.proceed

/-! ### Flat state wrapper (src/src/wrappers/state/flat/flat_state_wrapper.h)

`Flat_State_Wrapper<T>` keys its stored vectors by (name, entity) pairs;
`std::map`s are modelled as association lists where an insertion prepends
and lookup takes the most recent binding. -/

/-- Entity kinds of the old-tree state wrapper (opaque to the wrapper:
only equality of kinds is used). -/
inductive Entity_kind where
  | UNKNOWN_KIND | NODE | EDGE | FACE | CELL | SIDE | WEDGE | CORNER
deriving DecidableEq, Repr

/-- The fields of `Flat_State_Wrapper<T>`. -/
structure Flat_State_Wrapper (T : Type) where
  state_ : List (List T)
  name_map_ : List ((String × Entity_kind) × ℕ)
  entity_map_ : List (String × Entity_kind)
  entity_size_map_ : List (Entity_kind × ℕ)

/-- A freshly constructed wrapper. -/
def Flat_State_Wrapper.empty (T : Type) : Flat_State_Wrapper T :=
  ⟨[], [], [], []⟩

/-- `Flat_State_Wrapper::get_data`: `some` of the stored vector when the
(name, entity) combination is registered, `none` (null output pointer)
otherwise; it performs no throwing operation. -/
def get_data {T : Type} (s : Flat_State_Wrapper T)
    (on_what : Entity_kind) (var_name : String) : Option (List T) :=
  match lookupKey s.name_map_ (var_name, on_what) with
  | some i => some (s.state_.getD i [])
  | none => none

/-- The store step of `Flat_State_Wrapper::add_data` after the size
check: push a new vector for a fresh (name, entity) combination, or copy
the data over the existing vector (the `std::copy` overwrites the first
`data.length` elements and leaves any tail). -/
def add_data_store {T : Type} (s : Flat_State_Wrapper T)
    (on_what : Entity_kind) (var_name : String) (data : List T) :
    Flat_State_Wrapper T :=
  match lookupKey s.name_map_ (var_name, on_what) with
  | none =>
      { state_ := s.state_ ++ [data],
        name_map_ := ((var_name, on_what), s.state_.length) :: s.name_map_,
        entity_map_ := (var_name, on_what) :: s.entity_map_,
        entity_size_map_ := (on_what, data.length) :: s.entity_size_map_ }
  | some i =>
      { s with state_ :=
          s.state_.set i (data ++ (s.state_.getD i []).drop data.length) }

/-- `Flat_State_Wrapper::add_data`: throws (models as `Except.error`)
when the entity has been seen with a different size, otherwise stores. -/
def add_data {T : Type} (s : Flat_State_Wrapper T)
    (on_what : Entity_kind) (var_name : String) (data : List T) :
    Except String (Flat_State_Wrapper T) :=
  match lookupKey s.entity_size_map_ on_what with
  | some n =>
      if n ≠ data.length then
        Except.error ("variable " ++ var_name ++ " has incompatible size on add")
      else Except.ok (add_data_store s on_what var_name data)
  | none =>
      Except.ok (add_data_store
        { s with entity_size_map_ := (on_what, data.length) :: s.entity_size_map_ }
        on_what var_name data)

/-- Consistency invariant of the wrapper: every registered (name, entity)
combination points into `state_`, and the stored vector's length agrees
with the entity's recorded size. -/
def FlatWF {T : Type} (s : Flat_State_Wrapper T) : Prop :=
  ∀ nm ent i, lookupKey s.name_map_ (nm, ent) = some i →
    i < s.state_.length ∧
    ∃ sz, lookupKey s.entity_size_map_ ent = some sz ∧
      (s.state_.getD i []).length = sz

/-- Unfolding of the non-degenerate branch of the remap functor. -/
lemma remap1stOrder_eq_div (v : ℤ → ℚ) (cells : List ℤ) (ws : List (List ℚ))
    (hne : cells ≠ []) (hlen : cells.length ≤ ws.length) :
    remap1stOrder v cells ws
      = ((cells.zip ws).map fun p => v p.1 * w0 p.2).sum
          / ((cells.zip ws).map fun p => w0 p.2).sum := by
  unfold remap1stOrder
  rw [if_neg (by simpa using hne), if_neg (by omega)]

/-- The accumulated value over the zipped pair list, as a zipWith. -/
lemma zip_map_val (v : ℤ → ℚ) :
    ∀ (cs : List ℤ) (us : List (List ℚ)),
      (cs.zip us).map (fun p => v p.1 * w0 p.2)
        = List.zipWith (fun c w => v c * w0 w) cs us
  | [], _ => by simp
  | _ :: _, [] => by simp
  | c :: cs, u :: us => by
      simp [List.zip_cons_cons, zip_map_val v cs us]

/-- The accumulated 0th moments over the zipped pair list, for matching
lengths, are the 0th moments of the weight vectors. -/
lemma zip_map_w0 :
    ∀ (cs : List ℤ) (us : List (List ℚ)), us.length = cs.length →
      (cs.zip us).map (fun p => w0 p.2) = us.map w0
  | [], [], _ => by simp
  | [], _ :: _, h => by simp at h
  | _ :: _, [], h => by simp at h
  | c :: cs, u :: us, h => by
      simp [List.zip_cons_cons, zip_map_w0 cs us (by simpa using h)]

/-- Only the 0th moment of each weight vector enters the zipWith. -/
lemma zipWith_w0_map (v : ℤ → ℚ) :
    ∀ (cs : List ℤ) (us : List (List ℚ)),
      List.zipWith (fun c w => v c * w0 w) cs us
        = List.zipWith (fun c x => v c * x) cs (us.map w0)
  | [], _ => by simp
  | _ :: _, [] => by simp
  | c :: cs, u :: us => by simp [zipWith_w0_map v cs us]

/-- A zipWith ignoring the source index, over matching lengths, is a map. -/
lemma zipWith_const_w0 (K : ℚ) :
    ∀ (cs : List ℤ) (us : List (List ℚ)), us.length = cs.length →
      List.zipWith (fun _ w => K * w0 w) cs us = us.map (fun w => K * w0 w)
  | [], [], _ => by simp
  | [], _ :: _, h => by simp at h
  | _ :: _, [], h => by simp at h
  | c :: cs, u :: us, h => by
      simp [zipWith_const_w0 K cs us (by simpa using h)]

/-- The quotient form of the remap for matching list lengths. -/
lemma remap1stOrder_formula (v : ℤ → ℚ) (cells : List ℤ)
    (ws : List (List ℚ)) (hne : cells ≠ [])
    (hlen : ws.length = cells.length) :
    remap1stOrder v cells ws
      = (List.zipWith (fun c w => v c * w0 w) cells ws).sum
          / (ws.map w0).sum := by
  rw [remap1stOrder_eq_div v cells ws hne (le_of_eq hlen.symm),
      zip_map_val v cells ws, zip_map_w0 cells ws hlen]

end Portage

namespace Portage

/-- C2: for a nonempty source list with one weight vector per source, the
1st-order interpolator returns (Σⱼ φ_srcⱼ·w₀ⱼ)/(Σⱼ w₀ⱼ), and the result
depends only on the 0th-moment components of the weight vectors. -/
theorem remap_first_order_value (v : ℤ → ℚ) (cells : List ℤ)
    (ws ws' : List (List ℚ)) (hne : cells ≠ [])
    (hlen : ws.length = cells.length) (hlen' : ws'.length = cells.length)
    (hw0 : ws.map w0 = ws'.map w0) :
    remap1stOrder v cells ws
        = (List.zipWith (fun c w => v c * w0 w) cells ws).sum
            / (ws.map w0).sum
      ∧ remap1stOrder v cells ws = remap1stOrder v cells ws' := by
  have key : ∀ (u : List (List ℚ)), u.length = cells.length →
      remap1stOrder v cells u
        = (List.zipWith (fun c x => v c * x) cells (u.map w0)).sum
            / (u.map w0).sum := by
    intro u hu
    rw [remap1stOrder_formula v cells u hne hu, zipWith_w0_map v cells u]
  constructor
  · rw [key ws hlen, zipWith_w0_map v cells ws]
  · rw [key ws hlen, key ws' hlen', hw0]

/-- Witness for `remap_first_order_value` at a concrete input. -/
theorem remap_first_order_value_witness :
    remap1stOrder (fun c => (c : ℚ)) [5, 7] [[2, 9], [2, 4]]
        = (List.zipWith (fun c w => ((c : ℤ) : ℚ) * w0 w) [5, 7]
            [[2, 9], [2, 4]]).sum / (([[2, 9], [2, 4]] :
              List (List ℚ)).map w0).sum
      ∧ remap1stOrder (fun c => (c : ℚ)) [5, 7] [[2, 9], [2, 4]]
          = remap1stOrder (fun c => (c : ℚ)) [5, 7] [[2, 1], [2, 3]] :=
  remap_first_order_value (fun c => (c : ℚ)) [5, 7] [[2, 9], [2, 4]]
    [[2, 1], [2, 3]] (by decide) (by decide) (by decide) (by decide)

/-- C3: a constant source field φ ≡ K is reproduced exactly by the
1st-order remap whenever the 0th-moment weights have a nonzero sum. -/
theorem remap_first_order_constant (v : ℤ → ℚ) (K : ℚ) (cells : List ℤ)
    (ws : List (List ℚ)) (hK : ∀ c, v c = K) (hne : cells ≠ [])
    (hlen : ws.length = cells.length) (hsum : (ws.map w0).sum ≠ 0) :
    remap1stOrder v cells ws = K := by
  rw [remap1stOrder_formula v cells ws hne hlen]
  have hfun : (fun (c : ℤ) (w : List ℚ) => v c * w0 w)
      = fun _ w => K * w0 w := by
    funext c w; rw [hK c]
  rw [hfun]
  have hnum : (List.zipWith (fun (_ : ℤ) (w : List ℚ) => K * w0 w)
      cells ws).sum = K * (ws.map w0).sum := by
    rw [zipWith_const_w0 K cells ws hlen, ← List.sum_map_mul_left]
  rw [hnum, mul_div_assoc, div_self hsum, mul_one]

/-- Witness for `remap_first_order_constant` at a concrete input. -/
theorem remap_first_order_constant_witness :
    remap1stOrder (fun _ => (4 : ℚ)) [2, 9] [[3], [5, 8]] = 4 :=
  remap_first_order_constant (fun _ => (4 : ℚ)) 4 [2, 9] [[3], [5, 8]]
    (fun _ => rfl) (by decide) (by decide) (by norm_num [w0])

/-- C7: the 1st-order interpolator is invariant under permutations of the
(source, weights) pair list, provided the 0th moments have nonzero sum. -/
theorem remap_first_order_perm (v : ℤ → ℚ) (c₁ c₂ : List ℤ)
    (w₁ w₂ : List (List ℚ))
    (hl₁ : w₁.length = c₁.length) (hl₂ : w₂.length = c₂.length)
    (hperm : (c₁.zip w₁).Perm (c₂.zip w₂))
    (hsum : ((c₁.zip w₁).map fun p => w0 p.2).sum ≠ 0) :
    remap1stOrder v c₁ w₁ = remap1stOrder v c₂ w₂ := by
  have hzl₁ : (c₁.zip w₁).length = c₁.length := by
    rw [List.length_zip, hl₁, min_self]
  have hzl₂ : (c₂.zip w₂).length = c₂.length := by
    rw [List.length_zip, hl₂, min_self]
  have hne₁ : c₁ ≠ [] := by
    intro h; subst h
    simp at hsum
  have hne₂ : c₂ ≠ [] := by
    intro h; subst h
    simp only [List.zip_nil_left, List.perm_nil] at hperm
    rw [hperm] at hsum
    simp at hsum
  rw [remap1stOrder_eq_div v c₁ w₁ hne₁ (le_of_eq hl₁.symm),
      remap1stOrder_eq_div v c₂ w₂ hne₂ (le_of_eq hl₂.symm),
      (hperm.map fun p => v p.1 * w0 p.2).sum_eq,
      (hperm.map fun p => w0 p.2).sum_eq]

/-- Witness for `remap_first_order_perm` at a concrete input. -/
theorem remap_first_order_perm_witness :
    remap1stOrder (fun c => (c : ℚ)) [5, 7] [[2, 9], [3, 4]]
      = remap1stOrder (fun c => (c : ℚ)) [7, 5] [[3, 4], [2, 9]] :=
  remap_first_order_perm (fun c => (c : ℚ)) [5, 7] [7, 5]
    [[2, 9], [3, 4]] [[3, 4], [2, 9]] (by decide) (by decide)
    (by decide) (by norm_num [w0])

/-- C9: the 1st-order interpolator returns exactly 0 on an empty source
list, and on a nonempty list (with enough weight vectors) it returns the
accumulated value divided by the sum of 0th-moment weights, with no guard
against a zero sum. -/
theorem remap_first_order_empty_and_quotient (v : ℤ → ℚ) :
    (∀ ws, remap1stOrder v [] ws = 0) ∧
    (∀ cells ws, cells ≠ [] → cells.length ≤ ws.length →
      remap1stOrder v cells ws
        = ((cells.zip ws).map fun p => v p.1 * w0 p.2).sum
            / ((cells.zip ws).map fun p => w0 p.2).sum) :=
  ⟨fun ws => by simp [remap1stOrder],
   fun cells ws hne hlen => remap1stOrder_eq_div v cells ws hne hlen⟩

/-- Witness for `remap_first_order_empty_and_quotient`: the zero-sum case
is exercised concretely, showing there is no zero-divide guard. -/
theorem remap_first_order_empty_and_quotient_witness :
    remap1stOrder (fun c => (c : ℚ)) [] [[1]] = 0 ∧
    remap1stOrder (fun c => (c : ℚ)) [3, 4] [[1], [-1]]
      = ((([3, 4] : List ℤ).zip [[1], [-1]]).map
          fun p => ((p.1 : ℤ) : ℚ) * w0 p.2).sum
        / ((([3, 4] : List ℤ).zip [[1], [-1]]).map fun p => w0 p.2).sum :=
  ⟨(remap_first_order_empty_and_quotient (fun c => (c : ℚ))).1 [[1]],
   (remap_first_order_empty_and_quotient (fun c => (c : ℚ))).2 [3, 4]
     [[1], [-1]] (by decide) (by decide)⟩

/-- A face whose two triangle determinants have strictly opposite signs
makes the loop body return the twisted-face error. -/
lemma sweptFaceStep_twisted (m : SweptMesh2D) (src : ℤ) (stencil : List ℤ)
    (e : ℕ) (d : ℤ)
    (h : (0 < (sweptDets m e d).1 ∧ (sweptDets m e d).2 < 0)
       ∨ ((sweptDets m e d).1 < 0 ∧ 0 < (sweptDets m e d).2)) :
    sweptFaceStep m src stencil e d = Except.error SweptError.twistedFace := by
  unfold sweptFaceStep
  rw [if_pos]
  rcases h with ⟨h0, h1⟩ | ⟨h0, h1⟩
  · exact ⟨fun hc => absurd h1 (not_lt.2 hc.2), fun hc => absurd h0 (not_lt.2 (le_of_lt hc.1))⟩
  · exact ⟨fun hc => absurd h0 (not_lt.2 hc.1), fun hc => absurd h1 (not_lt.2 (le_of_lt hc.2))⟩

/-- If every face before position `i` passes and face `i` errors with a
twist, the face loop as a whole returns the twisted-face error. -/
lemma sweptFacesLoop_twisted (m : SweptMesh2D) (src : ℤ) (stencil : List ℤ) :
    ∀ (faces : List (ℕ × ℤ)) (i : ℕ), i < faces.length →
      (∀ j, j < i → ∃ r, sweptFaceStep m src stencil (faces.getD j (0, 0)).1
          (faces.getD j (0, 0)).2 = Except.ok r) →
      sweptFaceStep m src stencil (faces.getD i (0, 0)).1
          (faces.getD i (0, 0)).2 = Except.error SweptError.twistedFace →
      sweptFacesLoop m src stencil faces
        = Except.error SweptError.twistedFace := by
  intro faces
  induction faces with
  | nil => intro i hi; simp at hi
  | cons f rest ih =>
      intro i hi hprev hstep
      cases i with
      | zero =>
          rw [List.getD_cons_zero] at hstep
          unfold sweptFacesLoop
          rw [hstep]
      | succ j =>
          obtain ⟨r, hr⟩ := hprev 0 (Nat.succ_pos j)
          rw [List.getD_cons_zero] at hr
          have hrec := ih j (by simpa using hi)
            (fun k hk => by
              have h := hprev (k + 1) (by omega)
              rwa [List.getD_cons_succ] at h)
            (by rwa [List.getD_cons_succ] at hstep)
          unfold sweptFacesLoop
          rw [hr]
          cases r with
          | none => exact hrec
          | some w => rw [hrec]

/-- C1: if some face of the target cell yields a swept quadrilateral whose
two triangles have determinants of strictly opposite signs, and the faces
before it process normally, the intersector returns the swept-face-twist
error (all accumulated moments are discarded) instead of continuing. -/
theorem swept_face_twist_error (m : SweptMesh2D) (target_id : ℤ)
    (stencil : List ℤ) (i : ℕ) (e : ℕ) (d : ℤ)
    (hi : i < (m.cellFaces target_id).length)
    (hface : (m.cellFaces target_id).getD i (0, 0) = (e, d))
    (hprev : ∀ j, j < i → ∃ r, sweptFaceStep m target_id stencil
        ((m.cellFaces target_id).getD j (0, 0)).1
        ((m.cellFaces target_id).getD j (0, 0)).2 = Except.ok r)
    (htwist : (0 < (sweptDets m e d).1 ∧ (sweptDets m e d).2 < 0)
            ∨ ((sweptDets m e d).1 < 0 ∧ 0 < (sweptDets m e d).2)) :
    intersectSweptFace2D m target_id stencil
      = Except.error SweptError.twistedFace := by
  unfold intersectSweptFace2D
  refine sweptFacesLoop_twisted m target_id stencil (m.cellFaces target_id)
    i hi hprev ?_
  rw [hface]
  exact sweptFaceStep_twisted m target_id stencil e d htwist


/-- Witness for `swept_face_twist_error` on a concrete twisted face. -/
theorem swept_face_twist_error_witness :
    intersectSweptFace2D wtwist 0 [0]
      = Except.error SweptError.twistedFace :=
  swept_face_twist_error wtwist 0 [0] 0 0 (-1)
    (by norm_num [wtwist])
    (by norm_num [wtwist])
    (fun j hj => absurd hj (Nat.not_lt_zero j))
    (Or.inl (by norm_num [sweptDets, sweptQuad, sweptDet0, sweptDet1, wtwist]))

/-- C4: routing of a non-twisted swept polygon.  A negative signed area
contributes to the cell itself; a positive signed area contributes to the
face neighbor when the face has two incident cells (and the neighbor is in
the stencil), and is skipped when the face has a single incident cell
(boundary). -/
theorem swept_face_routing (m : SweptMesh2D) (target_id : ℤ)
    (stencil : List ℤ) (e : ℕ) (d : ℤ)
    (hok : (0 ≤ (sweptDets m e d).1 ∧ 0 ≤ (sweptDets m e d).2)
         ∨ ((sweptDets m e d).1 < 0 ∧ (sweptDets m e d).2 < 0)) :
    (sweptArea m e d < 0 →
      sweptFaceStep m target_id stencil e d
        = Except.ok (some (target_id, sweptMoment m e d)))
  ∧ (∀ n : ℤ, 0 < sweptArea m e d → 0 ≤ n → n ∈ stencil →
      (m.faceCells e = [target_id, n]
        ∨ (n ≠ target_id ∧ m.faceCells e = [n, target_id])) →
      sweptFaceStep m target_id stencil e d
        = Except.ok (some (n, sweptMoment m e d)))
  ∧ (0 < sweptArea m e d → (m.faceCells e).length = 1 →
      sweptFaceStep m target_id stencil e d = Except.ok none) := by
  have hnottw : ¬(¬(0 ≤ (sweptDets m e d).1 ∧ 0 ≤ (sweptDets m e d).2)
      ∧ ¬((sweptDets m e d).1 < 0 ∧ (sweptDets m e d).2 < 0)) := by
    rcases hok with h | h
    · exact fun hc => hc.1 h
    · exact fun hc => hc.2 h
  have hneigh : ∀ n : ℤ,
      (m.faceCells e = [target_id, n]
        ∨ (n ≠ target_id ∧ m.faceCells e = [n, target_id])) →
      get_face_incident_neigh m target_id e = n := by
    intro n hn
    unfold get_face_incident_neigh
    rcases hn with hn | ⟨hne, hn⟩
    · rw [hn]
      simp
    · rw [hn]
      simp [hne]
  refine ⟨fun hneg => ?_, fun n hpos hn0 hnst hn => ?_, fun hpos hb => ?_⟩
  · unfold sweptFaceStep
    rw [if_neg hnottw, if_pos hneg]
  · unfold sweptFaceStep
    rw [if_neg hnottw, if_neg (not_lt.2 (le_of_lt hpos))]
    have h := hneigh n hn
    simp only [h]
    rw [if_neg (not_lt.2 hn0), if_neg (by simpa using hnst)]
  · unfold sweptFaceStep
    rw [if_neg hnottw, if_neg (not_lt.2 (le_of_lt hpos))]
    have hngh : get_face_incident_neigh m target_id e = -1 := by
      unfold get_face_incident_neigh
      rw [if_neg (by omega)]
    simp only [hngh]
    rw [if_pos (by norm_num)]


/-- Witness for `swept_face_routing` on the three concrete cases. -/
theorem swept_face_routing_witness :
    (sweptFaceStep wroute 0 [0, 9] 0 (-1)
      = Except.ok (some (0, sweptMoment wroute 0 (-1))))
  ∧ (sweptFaceStep wroute 0 [0, 9] 1 (-1)
      = Except.ok (some (9, sweptMoment wroute 1 (-1))))
  ∧ (sweptFaceStep wroute 0 [0, 9] 2 (-1) = Except.ok none) :=
  ⟨(swept_face_routing wroute 0 [0, 9] 0 (-1)
      (Or.inr (by norm_num [sweptDets, sweptQuad, sweptDet0, sweptDet1,
        wroute]))).1
    (by norm_num [sweptArea, sweptDets, sweptQuad, sweptDet0, sweptDet1,
      wroute]),
   ((swept_face_routing wroute 0 [0, 9] 1 (-1)
      (Or.inl (by norm_num [sweptDets, sweptQuad, sweptDet0, sweptDet1,
        wroute]))).2).1 9
    (by norm_num [sweptArea, sweptDets, sweptQuad, sweptDet0, sweptDet1,
      wroute])
    (by norm_num) (by decide) (Or.inl (by norm_num [wroute])),
   ((swept_face_routing wroute 0 [0, 9] 2 (-1)
      (Or.inl (by norm_num [sweptDets, sweptQuad, sweptDet0, sweptDet1,
        wroute]))).2).2
    (by norm_num [sweptArea, sweptDets, sweptQuad, sweptDet0, sweptDet1,
      wroute])
    (by norm_num [wroute])⟩

/-- The per-axis test of the send-flag loop detects exactly the nonempty
intersection of the two inward-offset intervals, provided both offset
intervals are themselves nonempty. -/
lemma axis_test_iff (min1 max1 min2 max2 : ℚ)
    (h1 : min1 ≤ max1) (h2 : min2 ≤ max2) :
    ((min1 ≤ min2 ∧ min2 ≤ max1) ∨ (min2 ≤ min1 ∧ min1 ≤ max2))
      ↔ intervalsOverlap (min1, max1) (min2, max2) := by
  constructor
  · rintro (⟨ha, hb⟩ | ⟨ha, hb⟩)
    · exact ⟨min2, ha, hb, le_refl _, h2⟩
    · exact ⟨min1, le_refl _, h1, ha, hb⟩
  · rintro ⟨x, hx1, hx2, hx3, hx4⟩
    rcases le_total min1 min2 with h | h
    · exact Or.inl ⟨h, le_trans hx3 hx2⟩
    · exact Or.inr ⟨h, le_trans hx1 hx4⟩

/-- C5: `sendFlag` is true iff, on every coordinate axis, the source-box
interval and the peer's target-box interval overlap once both are offset
inward by the fudge factor (so face-touching boxes are excluded);
requires the offset intervals to be nonempty. -/
theorem send_flag_iff_overlap (off : ℚ) (sourceBox targetBox : List (ℚ × ℚ))
    (hlen : sourceBox.length = targetBox.length)
    (hs : ∀ p ∈ sourceBox, p.1 + off ≤ p.2 - off)
    (ht : ∀ p ∈ targetBox, p.1 + off ≤ p.2 - off) :
    sendFlag off sourceBox targetBox = true
      ↔ ∀ k, k < targetBox.length →
          intervalsOverlap (shrinkInterval off (sourceBox.getD k (0, 0)))
            (shrinkInterval off (targetBox.getD k (0, 0))) := by
  induction targetBox generalizing sourceBox with
  | nil =>
      have : sourceBox = [] := List.eq_nil_of_length_eq_zero hlen
      subst this
      simp [sendFlag]
  | cons t ts ih =>
      cases sourceBox with
      | nil => simp at hlen
      | cons s ss =>
          have hlen' : ss.length = ts.length := by simpa using hlen
          have hs' : ∀ p ∈ ss, p.1 + off ≤ p.2 - off :=
            fun p hp => hs p (List.mem_cons_of_mem s hp)
          have ht' : ∀ p ∈ ts, p.1 + off ≤ p.2 - off :=
            fun p hp => ht p (List.mem_cons_of_mem t hp)
          have hhead :
              (((t.1 + off ≤ s.1 + off ∧ s.1 + off ≤ t.2 - off)
                ∨ (s.1 + off ≤ t.1 + off ∧ t.1 + off ≤ s.2 - off)))
              ↔ intervalsOverlap (shrinkInterval off s)
                  (shrinkInterval off t) := by
            have h := axis_test_iff (t.1 + off) (t.2 - off)
              (s.1 + off) (s.2 - off)
              (ht t (List.mem_cons_self t ts))
              (hs s (List.mem_cons_self s ss))
            rw [h]
            constructor
            · rintro ⟨x, hx1, hx2, hx3, hx4⟩
              exact ⟨x, hx3, hx4, hx1, hx2⟩
            · rintro ⟨x, hx1, hx2, hx3, hx4⟩
              exact ⟨x, hx3, hx4, hx1, hx2⟩
          have htail := ih ss hlen' hs' ht'
          have hflat : sendFlag off (s :: ss) (t :: ts) = true ↔
              (((t.1 + off ≤ s.1 + off ∧ s.1 + off ≤ t.2 - off)
                ∨ (s.1 + off ≤ t.1 + off ∧ t.1 + off ≤ s.2 - off))
                ∧ sendFlag off ss ts = true) := by
            simp [sendFlag, List.zip_cons_cons, List.all_cons]
          constructor
          · intro hall k hk
            rw [hflat] at hall
            cases k with
            | zero => simpa [List.getD_cons_zero] using hhead.1 hall.1
            | succ j =>
                have := (htail.1 hall.2) j (by simpa using hk)
                simpa [List.getD_cons_succ] using this
          · intro hover
            rw [hflat]
            refine ⟨hhead.2 ?_, htail.2 ?_⟩
            · have := hover 0 (Nat.succ_pos ts.length)
              simpa [List.getD_cons_zero] using this
            · intro j hj
              have := hover (j + 1) (by simpa using Nat.succ_lt_succ hj)
              simpa [List.getD_cons_succ] using this

/-- Witness for `send_flag_iff_overlap`: two overlapping 2D boxes. -/
theorem send_flag_iff_overlap_witness :
    sendFlag (1/8) [(0, 2), (0, 2)] [(1, 3), (1, 3)] = true
      ↔ ∀ k, k < ([(1, 3), (1, 3)] : List (ℚ × ℚ)).length →
          intervalsOverlap
            (shrinkInterval (1/8) (([(0, 2), (0, 2)] :
              List (ℚ × ℚ)).getD k (0, 0)))
            (shrinkInterval (1/8) (([(1, 3), (1, 3)] :
              List (ℚ × ℚ)).getD k (0, 0))) :=
  send_flag_iff_overlap (1/8) [(0, 2), (0, 2)] [(1, 3), (1, 3)]
    (by decide)
    (by intro p hp; fin_cases hp <;> norm_num)
    (by intro p hp; fin_cases hp <;> norm_num)

/-- The running `globalCellMap` loop assigns each position the index of
the first occurrence of its global id. -/
lemma cellUniqueRepAux_spec (full : List ℤ) :
    ∀ (rest : List ℤ) (gmap : List (ℤ × ℕ)) (i : ℕ),
      full.drop i = rest →
      (∀ g : ℤ, (g ∈ full.take i →
          lookupKey gmap g = some (List.indexOf g full)) ∧
        (g ∉ full.take i → lookupKey gmap g = none)) →
      ∀ k, k < rest.length →
        (cellUniqueRepAux gmap rest i).getD k 0
          = List.indexOf (rest.getD k 0) full := by
  intro rest
  induction rest with
  | nil => intro gmap i _ _ k hk; simp at hk
  | cons g rest' ih =>
      intro gmap i hdrop hinv k hk
      have hilt : i < full.length := by
        by_contra hge
        rw [List.drop_eq_nil_of_le (le_of_not_lt hge)] at hdrop
        exact List.cons_ne_nil g rest' hdrop.symm
      have hdrop' : full.drop (i + 1) = rest' := by
        have : full.drop (i + 1) = (full.drop i).drop 1 := by
          rw [List.drop_drop, Nat.add_comm]
        rw [this, hdrop, List.drop_one, List.tail_cons]
      have hget : full[i]? = some g := by
        have h0 : (full.drop i)[0]? = full[i + 0]? := List.getElem?_drop full i 0
        rw [hdrop] at h0
        simpa using h0.symm
      have htake : full.take (i + 1) = full.take i ++ [g] := by
        rw [List.take_succ, hget]
        rfl
      cases hlook : lookupKey gmap g with
      | some j =>
          have hgmem : g ∈ full.take i := by
            by_contra hnm
            rw [(hinv g).2 hnm] at hlook
            exact Option.noConfusion hlook
          have hj : j = List.indexOf g full := by
            have := (hinv g).1 hgmem
            rw [hlook] at this
            exact Option.some.inj this
          have hnext : ∀ g' : ℤ, (g' ∈ full.take (i + 1) →
              lookupKey gmap g' = some (List.indexOf g' full)) ∧
            (g' ∉ full.take (i + 1) → lookupKey gmap g' = none) := by
            intro g'
            constructor
            · intro hmem
              rw [htake] at hmem
              rcases List.mem_append.1 hmem with h | h
              · exact (hinv g').1 h
              · have : g' = g := by simpa using h
                subst this
                exact (hinv g').1 hgmem
            · intro hnm
              rw [htake] at hnm
              exact (hinv g').2 (fun hmem => hnm (List.mem_append.2 (Or.inl hmem)))
          cases k with
          | zero =>
              simp only [cellUniqueRepAux, hlook, List.getD_cons_zero]
              exact hj
          | succ k' =>
              simp only [cellUniqueRepAux, hlook, List.getD_cons_succ]
              exact ih gmap (i + 1) hdrop' hnext k' (by simpa using hk)
      | none =>
          have hgnm : g ∉ full.take i := by
            by_contra hmem
            rw [(hinv g).1 hmem] at hlook
            exact Option.noConfusion hlook
          have hidx : List.indexOf g full = i := by
            conv_lhs => rw [← List.take_append_drop i full]
            rw [hdrop, List.indexOf_append_of_not_mem hgnm]
            have hlen : (full.take i).length = i := by
              rw [List.length_take]
              omega
            rw [hlen, List.indexOf_cons_self]
            omega
          have hnext : ∀ g' : ℤ, (g' ∈ full.take (i + 1) →
              lookupKey ((g, i) :: gmap) g' = some (List.indexOf g' full)) ∧
            (g' ∉ full.take (i + 1) →
              lookupKey ((g, i) :: gmap) g' = none) := by
            intro g'
            constructor
            · intro hmem
              by_cases hg : g' = g
              · subst hg
                simp [lookupKey, hidx]
              · rw [htake] at hmem
                rcases List.mem_append.1 hmem with h | h
                · simp only [lookupKey]
                  rw [if_neg (by exact fun hc => hg hc.symm)]
                  exact (hinv g').1 h
                · exact absurd (by simpa using h) hg
            · intro hnm
              rw [htake] at hnm
              have hg : g' ≠ g := by
                intro hc; subst hc
                exact hnm (List.mem_append.2 (Or.inr (List.mem_singleton.2 rfl)))
              simp only [lookupKey]
              rw [if_neg (by exact fun hc => hg hc.symm)]
              exact (hinv g').2 (fun hmem => hnm (List.mem_append.2 (Or.inl hmem)))
          cases k with
          | zero =>
              simp only [cellUniqueRepAux, hlook, List.getD_cons_zero]
              exact hidx.symm
          | succ k' =>
              simp only [cellUniqueRepAux, hlook, List.getD_cons_succ]
              exact ih ((g, i) :: gmap) (i + 1) hdrop' hnext k' (by simpa using hk)

/-- `cellUniqueRep` maps every position to the first occurrence of its
global id in the received id list. -/
lemma cellUniqueRep_spec (gids : List ℤ) (k : ℕ) (hk : k < gids.length) :
    (cellUniqueRep gids).getD k 0 = List.indexOf (gids.getD k 0) gids := by
  have h := cellUniqueRepAux_spec gids gids [] 0 (List.drop_zero gids)
    (fun g => ⟨fun hmem => by simp at hmem, fun _ => rfl⟩) k (by simpa using hk)
  exact h

/-- Position `(matRecvCounts.take r).sum + i` of the fixed-up list (the
`i`-th material cell received from rank `r`) receives `cellUniqueRep`
applied to the value stored at that same position plus rank `r`'s cell
offset. -/
lemma fixMaterialCells_getD (uniq : List ℕ) :
    ∀ (r : ℕ) (crs mrs : List ℕ) (off : ℕ) (cells : List ℕ) (i : ℕ),
      r < crs.length → r < mrs.length → i < mrs.getD r 0 →
      (mrs.take (r + 1)).sum ≤ cells.length →
      (fixMaterialCells uniq crs mrs off cells).getD
          ((mrs.take r).sum + i) 0
        = uniq.getD (cells.getD ((mrs.take r).sum + i) 0 + off
            + (crs.take r).sum) 0 := by
  intro r
  induction r with
  | zero =>
      intro crs mrs off cells i hcr hmr hi hcov
      cases crs with
      | nil => simp at hcr
      | cons cr crs' =>
          cases mrs with
          | nil => simp at hmr
          | cons mr mrs' =>
              simp only [List.getD_cons_zero] at hi
              rw [List.take_succ_cons, List.sum_cons] at hcov
              have hmrle : mr ≤ cells.length := by omega
              have hlen : (List.map (fun c => uniq.getD (c + off) 0)
                  (cells.take mr)).length = mr := by
                rw [List.length_map, List.length_take]
                omega
              simp only [fixMaterialCells, List.take_zero, List.sum_nil,
                Nat.zero_add]
              rw [List.getD_append _ _ _ _ (by omega)]
              have hilt : i < (cells.take mr).length := by
                rw [List.length_take]; omega
              have h1 : (List.map (fun c => uniq.getD (c + off) 0)
                  (cells.take mr)).getD i 0
                  = uniq.getD ((cells.take mr).getD i 0 + off) 0 := by
                rw [List.getD_eq_getElem _ _ (by omega),
                  List.getElem_map, List.getD_eq_getElem _ _ hilt]
              have h2 : (cells.take mr).getD i 0 = cells.getD i 0 := by
                rw [List.getD_eq_getElem _ _ hilt,
                  List.getD_eq_getElem _ _ (by omega), List.getElem_take]
              rw [h1, h2, Nat.add_zero]
  | succ r ihr =>
      intro crs mrs off cells i hcr hmr hi hcov
      cases crs with
      | nil => simp at hcr
      | cons cr crs' =>
          cases mrs with
          | nil => simp at hmr
          | cons mr mrs' =>
              simp only [List.getD_cons_succ] at hi
              rw [List.take_succ_cons, List.sum_cons] at hcov
              have hcov' : (mrs'.take (r + 1)).sum ≤ (cells.drop mr).length := by
                rw [List.length_drop]
                omega
              have hmrle : mr ≤ cells.length := by omega
              have hlen : (List.map (fun c => uniq.getD (c + off) 0)
                  (cells.take mr)).length = mr := by
                rw [List.length_map, List.length_take]
                omega
              have hpos : ((mr :: mrs').take (r + 1)).sum + i
                  = mr + ((mrs'.take r).sum + i) := by
                rw [List.take_succ_cons, List.sum_cons]
                omega
              simp only [fixMaterialCells]
              rw [hpos, List.getD_append_right _ _ _ _ (by omega)]
              have hsub : mr + ((mrs'.take r).sum + i)
                  - (List.map (fun c => uniq.getD (c + off) 0)
                      (cells.take mr)).length
                  = (mrs'.take r).sum + i := by
                omega
              rw [hsub]
              have := ihr crs' mrs' (off + cr) (cells.drop mr) i
                (by simpa using hcr) (by simpa using hmr) hi hcov'
              rw [this]
              have hdropget : (cells.drop mr).getD ((mrs'.take r).sum + i) 0
                  = cells.getD (mr + ((mrs'.take r).sum + i)) 0 := by
                simp only [List.getD_eq_getD_get?, List.get?_eq_getElem?,
                  List.getElem?_drop]
              rw [hdropget]
              have hoffs : ((cr :: crs').take (r + 1)).sum
                  = cr + (crs'.take r).sum := by
                simp [List.take_succ_cons]
              rw [hoffs]
              have : cells.getD (mr + ((mrs'.take r).sum + i)) 0 + (off + cr)
                  + (crs'.take r).sum
                  = cells.getD (mr + ((mrs'.take r).sum + i)) 0 + off
                    + (cr + (crs'.take r).sum) := by
                omega
              rw [this]

/-- C6: the reconciliation loop stores, at each position of the
concatenated received material-cell list, `cellUniqueRep` applied to the
rank-offset value read from that same position (the read precedes the
counter increment), so each received material cell is mapped to the first
local occurrence of its global id. -/
theorem material_cells_first_occurrence (gids : List ℤ)
    (cellRecvCounts matRecvCounts : List ℕ) (cells : List ℕ) (r i : ℕ)
    (hr₁ : r < cellRecvCounts.length) (hr₂ : r < matRecvCounts.length)
    (hi : i < matRecvCounts.getD r 0)
    (hcov : (matRecvCounts.take (r + 1)).sum ≤ cells.length)
    (hb : cells.getD ((matRecvCounts.take r).sum + i) 0
        + (cellRecvCounts.take r).sum < gids.length) :
    (distributeMaterialCells gids cellRecvCounts matRecvCounts cells).getD
        ((matRecvCounts.take r).sum + i) 0
      = (cellUniqueRep gids).getD
          (cells.getD ((matRecvCounts.take r).sum + i) 0
            + (cellRecvCounts.take r).sum) 0
    ∧ (cellUniqueRep gids).getD
          (cells.getD ((matRecvCounts.take r).sum + i) 0
            + (cellRecvCounts.take r).sum) 0
        = List.indexOf (gids.getD
            (cells.getD ((matRecvCounts.take r).sum + i) 0
              + (cellRecvCounts.take r).sum) 0) gids := by
  constructor
  · have h := fixMaterialCells_getD (cellUniqueRep gids) r cellRecvCounts
      matRecvCounts 0 cells i hr₁ hr₂ hi hcov
    unfold distributeMaterialCells
    rw [h, Nat.add_zero]
  · exact cellUniqueRep_spec gids _ hb

/-- Witness for `material_cells_first_occurrence`: global ids [10, 20, 10]
with rank cell counts [2, 1] and material-cell counts [1, 2]; the first
material cell of rank 1 refers to its local cell 0, which is global id 10
and is mapped back to local index 0. -/
theorem material_cells_first_occurrence_witness :
    (distributeMaterialCells [10, 20, 10] [2, 1] [1, 2] [1, 0, 0]).getD 1 0
      = (cellUniqueRep [10, 20, 10]).getD 2 0
    ∧ (cellUniqueRep [10, 20, 10]).getD 2 0
      = List.indexOf (([10, 20, 10] : List ℤ).getD 2 0) [10, 20, 10] := by
  have h := material_cells_first_occurrence [10, 20, 10] [2, 1] [1, 2]
    [1, 0, 0] 1 0 (by decide) (by decide) (by decide) (by decide) (by decide)
  simpa using h

/-- C8 counterexample: portageapp's `main`, invoked with too few
command-line arguments (`argc <= 2`), prints the usage text and returns
exit code 0, not 1 as the claim requires for usage errors. -/
theorem app_usage_exit_counterexample :
    portageappMain 2 = AppExit.exit 0 ∧ AppExit.exit 0 ≠ AppExit.exit 1 :=
  ⟨rfl, by decide⟩

/-- C8 (amended): momentumapp's `main` returns 1 on too few arguments or
on out-of-range method/ini_density/ini_velocity and otherwise proceeds to
a run that ends with exit code 0; portageapp's `main`, however, returns 0
(after printing usage) when given too few arguments. -/
theorem app_exit_codes :
    (∀ argc, argc ≤ 2 → portageappMain argc = AppExit.exit 0)
  ∧ (∀ argc, 2 < argc → portageappMain argc = AppExit.proceed)
  ∧ (∀ argc m den vel, argc < 7 →
      momentumappMain argc m den vel = AppExit.exit 1)
  ∧ (∀ argc m den vel, 7 ≤ argc →
      ((m ≠ SGH ∧ m ≠ CCH) ∨ den < 0 ∨ 2 < den ∨ vel < 0 ∨ 3 < vel) →
      momentumappMain argc m den vel = AppExit.exit 1)
  ∧ (∀ argc m den vel, 7 ≤ argc → (m = SGH ∨ m = CCH) →
      0 ≤ den → den ≤ 2 → 0 ≤ vel → vel ≤ 3 →
      momentumappMain argc m den vel = AppExit.proceed) := by
  refine ⟨fun argc h => ?_, fun argc h => ?_, fun argc m den vel h => ?_,
    fun argc m den vel h hbad => ?_, fun argc m den vel h hm hd₁ hd₂ hv₁ hv₂ => ?_⟩
  · rw [portageappMain, if_pos h]
  · rw [portageappMain, if_neg (by omega)]
  · rw [momentumappMain, if_pos h]
  · rw [momentumappMain, if_neg (by omega), if_pos ?_]
    rcases hbad with hbad | hbad | hbad | hbad | hbad
    · exact Or.inl hbad
    · exact Or.inr (Or.inl (Or.inl hbad))
    · exact Or.inr (Or.inl (Or.inr hbad))
    · exact Or.inr (Or.inr (Or.inl hbad))
    · exact Or.inr (Or.inr (Or.inr hbad))
  · rw [momentumappMain, if_neg (by omega), if_neg ?_]
    push_neg
    refine ⟨fun hns => ?_, ⟨by omega, by omega⟩, by omega, by omega⟩
    rcases hm with hm | hm
    · exact absurd hm hns
    · exact hm

/-- Witness for `app_exit_codes` at concrete invocations. -/
theorem app_exit_codes_witness :
    portageappMain 1 = AppExit.exit 0
  ∧ portageappMain 3 = AppExit.proceed
  ∧ momentumappMain 3 1 0 0 = AppExit.exit 1
  ∧ momentumappMain 7 3 0 0 = AppExit.exit 1
  ∧ momentumappMain 7 2 1 2 = AppExit.proceed :=
  ⟨app_exit_codes.1 1 (by decide),
   (app_exit_codes.2).1 3 (by decide),
   (app_exit_codes.2.2).1 3 1 0 0 (by decide),
   (app_exit_codes.2.2.2).1 7 3 0 0 (by decide)
     (Or.inl ⟨by decide, by decide⟩),
   (app_exit_codes.2.2.2).2 7 2 1 2 (by decide) (Or.inr rfl)
     (by decide) (by decide) (by decide) (by decide)⟩

/-- getD after set at the set position. -/
lemma getD_set_self {α : Type} (l : List α) (i : ℕ) (v d : α)
    (h : i < l.length) : (l.set i v).getD i d = v := by
  rw [List.getD_eq_getElem _ _ (by simpa using h)]
  rw [List.getElem_set_self]

/-- getD after set at a different position. -/
lemma getD_set_ne {α : Type} (l : List α) (i j : ℕ) (v d : α)
    (h : i ≠ j) : (l.set j v).getD i d = l.getD i d := by
  simp [List.getD_eq_getD_get?, List.get?_eq_getElem?,
    List.getElem?_set_ne h.symm]

/-- getD of the appended element. -/
lemma getD_append_length {α : Type} (l : List α) (x d : α) :
    (l ++ [x]).getD l.length d = x := by
  rw [List.getD_eq_getElem _ _ (by simp)]
  simp

/-- getD of an append below the boundary. -/
lemma getD_append_lt {α : Type} (l : List α) (x d : α) (i : ℕ)
    (h : i < l.length) : (l ++ [x]).getD i d = l.getD i d :=
  List.getD_append _ _ _ _ h

/-- The empty wrapper is well-formed. -/
lemma FlatWF_empty (T : Type) : FlatWF (Flat_State_Wrapper.empty T) :=
  fun _ _ _ h => Option.noConfusion h

/-- `get_data` yields `none` exactly on unregistered combinations. -/
lemma get_data_none_iff {T : Type} (s : Flat_State_Wrapper T)
    (k : Entity_kind) (n : String) :
    get_data s k n = none ↔ lookupKey s.name_map_ (n, k) = none := by
  unfold get_data
  cases h : lookupKey s.name_map_ (n, k) <;> simp

/-- lookupKey finds the most recent binding of a key. -/
lemma lookupKey_cons_self {α β : Type} [DecidableEq α] (a : α) (b : β)
    (l : List (α × β)) : lookupKey ((a, b) :: l) a = some b := by
  simp [lookupKey]

/-- lookupKey skips a binding with a different key. -/
lemma lookupKey_cons_ne {α β : Type} [DecidableEq α] (a a' : α) (b : β)
    (l : List (α × β)) (h : a ≠ a') :
    lookupKey ((a, b) :: l) a' = lookupKey l a' := by
  simp [lookupKey, h]

/-- After a successful `add_data`, `get_data` returns the added data. -/
lemma add_data_get {T : Type} (s : Flat_State_Wrapper T) (k : Entity_kind)
    (n : String) (d : List T) (s' : Flat_State_Wrapper T) (hwf : FlatWF s)
    (hadd : add_data s k n d = Except.ok s') :
    get_data s' k n = some d := by
  unfold add_data at hadd
  cases hsz : lookupKey s.entity_size_map_ k with
  | some m =>
      rw [hsz] at hadd
      dsimp only at hadd
      by_cases hm : m = d.length
      · rw [if_neg (fun hc => hc hm)] at hadd
        obtain rfl := Except.ok.inj hadd
        unfold add_data_store
        cases hnm : lookupKey s.name_map_ (n, k) with
        | none =>
            unfold get_data
            dsimp only
            rw [lookupKey_cons_self]
            dsimp only
            rw [getD_append_length]
        | some i =>
            obtain ⟨hilt, sz, hszv, hlenv⟩ := hwf n k i hnm
            have hszm : sz = d.length := by
              rw [hsz] at hszv
              have h := Option.some.inj hszv
              omega
            have hdrop : (s.state_.getD i []).drop d.length = [] := by
              rw [← hszm, ← hlenv]
              exact List.drop_length _
            unfold get_data
            dsimp only
            rw [hnm]
            dsimp only
            rw [hdrop, List.append_nil, getD_set_self _ _ _ _ hilt]
      · rw [if_pos hm] at hadd
        exact absurd hadd (by simp)
  | none =>
      rw [hsz] at hadd
      dsimp only at hadd
      obtain rfl := Except.ok.inj hadd
      unfold add_data_store
      cases hnm : lookupKey s.name_map_ (n, k) with
      | some i =>
          obtain ⟨_, sz, hszv, _⟩ := hwf n k i hnm
          rw [hsz] at hszv
          exact absurd hszv (by simp)
      | none =>
          unfold get_data
          dsimp only
          rw [lookupKey_cons_self]
          dsimp only
          rw [getD_append_length]

/-- A successful `add_data` preserves well-formedness. -/
lemma add_data_WF {T : Type} (s : Flat_State_Wrapper T) (k : Entity_kind)
    (n : String) (d : List T) (s' : Flat_State_Wrapper T) (hwf : FlatWF s)
    (hadd : add_data s k n d = Except.ok s') : FlatWF s' := by
  unfold add_data at hadd
  cases hsz : lookupKey s.entity_size_map_ k with
  | some m =>
      rw [hsz] at hadd
      dsimp only at hadd
      by_cases hm : m = d.length
      · rw [if_neg (fun hc => hc hm)] at hadd
        obtain rfl := Except.ok.inj hadd
        unfold add_data_store
        cases hnm : lookupKey s.name_map_ (n, k) with
        | none =>
            intro nm ent i hlk
            dsimp only at hlk
            by_cases hkey : ((n, k) : String × Entity_kind) = (nm, ent)
            · rw [← hkey, lookupKey_cons_self] at hlk
              obtain rfl := Option.some.inj hlk
              have hent : ent = k := (congrArg Prod.snd hkey).symm
              refine ⟨by simp, d.length, ?_, ?_⟩
              · subst hent
                exact lookupKey_cons_self _ _ _
              · rw [getD_append_length]
            · rw [lookupKey_cons_ne _ _ _ _ hkey] at hlk
              obtain ⟨hilt, sz, hszv, hlenv⟩ := hwf nm ent i hlk
              refine ⟨by simp; omega, ?_⟩
              by_cases hent : ent = k
              · subst hent
                have hszm : sz = d.length := by
                  rw [hsz] at hszv
                  have h := Option.some.inj hszv
                  omega
                refine ⟨d.length, lookupKey_cons_self _ _ _, ?_⟩
                rw [getD_append_lt _ _ _ _ hilt, hlenv]
                omega
              · refine ⟨sz, ?_, ?_⟩
                · rw [lookupKey_cons_ne _ _ _ _ (fun hc => hent hc.symm)]
                  exact hszv
                · rw [getD_append_lt _ _ _ _ hilt]
                  exact hlenv
        | some j =>
            obtain ⟨hjlt, szj, hszj, hlenj⟩ := hwf n k j hnm
            have hszjm : szj = d.length := by
              rw [hsz] at hszj
              have h := Option.some.inj hszj
              omega
            have hdrop : (s.state_.getD j []).drop d.length = [] := by
              rw [← hszjm, ← hlenj]
              exact List.drop_length _
            dsimp only
            rw [hdrop, List.append_nil]
            intro nm ent i hlk
            dsimp only at hlk
            obtain ⟨hilt, sz, hszv, hlenv⟩ := hwf nm ent i hlk
            refine ⟨by simpa using hilt, sz, hszv, ?_⟩
            by_cases hij : i = j
            · subst hij
              rw [getD_set_self _ _ _ _ hilt]
              have hszsz : sz = szj := by
                rw [← hlenv, hlenj]
              omega
            · rw [getD_set_ne _ _ _ _ _ hij]
              exact hlenv
      · rw [if_pos hm] at hadd
        exact absurd hadd (by simp)
  | none =>
      rw [hsz] at hadd
      dsimp only at hadd
      obtain rfl := Except.ok.inj hadd
      unfold add_data_store
      cases hnm : lookupKey s.name_map_ (n, k) with
      | some j =>
          obtain ⟨_, sz, hszv, _⟩ := hwf n k j hnm
          rw [hsz] at hszv
          exact absurd hszv (by simp)
      | none =>
          intro nm ent i hlk
          dsimp only at hlk
          by_cases hkey : ((n, k) : String × Entity_kind) = (nm, ent)
          · rw [← hkey, lookupKey_cons_self] at hlk
            obtain rfl := Option.some.inj hlk
            have hent : ent = k := (congrArg Prod.snd hkey).symm
            refine ⟨by simp, d.length, ?_, ?_⟩
            · subst hent
              exact lookupKey_cons_self _ _ _
            · rw [getD_append_length]
          · rw [lookupKey_cons_ne _ _ _ _ hkey] at hlk
            obtain ⟨hilt, sz, hszv, hlenv⟩ := hwf nm ent i hlk
            refine ⟨by simp; omega, ?_⟩
            by_cases hent : ent = k
            · subst hent
              rw [hsz] at hszv
              exact absurd hszv (by simp)
            · refine ⟨sz, ?_, ?_⟩
              · rw [lookupKey_cons_ne _ _ _ _ (fun hc => hent hc.symm),
                  lookupKey_cons_ne _ _ _ _ (fun hc => hent hc.symm)]
                exact hszv
              · rw [getD_append_lt _ _ _ _ hilt]
                exact hlenv

/-- C10: on a well-formed wrapper `get_data` yields `none` exactly when
the (name, entity) combination is unregistered and never fails; a
successful `add_data` keeps the wrapper well-formed and makes `get_data`
return exactly the stored data of that field. -/
theorem flat_state_get_data (T : Type) :
    FlatWF (Flat_State_Wrapper.empty T)
  ∧ (∀ (s : Flat_State_Wrapper T) k n d s', FlatWF s →
      add_data s k n d = Except.ok s' → FlatWF s')
  ∧ (∀ (s : Flat_State_Wrapper T) k n,
      get_data s k n = none ↔ lookupKey s.name_map_ (n, k) = none)
  ∧ (∀ (s : Flat_State_Wrapper T) k n d s', FlatWF s →
      add_data s k n d = Except.ok s' → get_data s' k n = some d) :=
  ⟨FlatWF_empty T,
   fun s k n d s' hwf hadd => add_data_WF s k n d s' hwf hadd,
   fun s k n => get_data_none_iff s k n,
   fun s k n d s' hwf hadd => add_data_get s k n d s' hwf hadd⟩

/-- Witness for `flat_state_get_data`: looking up an unregistered field
gives `none`; adding a field then reading it back gives its data. -/
theorem flat_state_get_data_witness :
    get_data (Flat_State_Wrapper.empty ℕ) Entity_kind.CELL "density" = none
  ∧ ∃ s', add_data (Flat_State_Wrapper.empty ℕ) Entity_kind.CELL "density"
        [1, 2] = Except.ok s'
      ∧ get_data s' Entity_kind.CELL "density" = some [1, 2] := by
  have h := flat_state_get_data ℕ
  refine ⟨((h.2.2.1 (Flat_State_Wrapper.empty ℕ) Entity_kind.CELL
      "density").2) rfl,
    ⟨{ state_ := [[1, 2]],
       name_map_ := [(("density", Entity_kind.CELL), 0)],
       entity_map_ := [("density", Entity_kind.CELL)],
       entity_size_map_ := [(Entity_kind.CELL, 2), (Entity_kind.CELL, 2)] },
     rfl,
     h.2.2.2 (Flat_State_Wrapper.empty ℕ) Entity_kind.CELL "density"
       [1, 2] _ h.1 rfl⟩⟩

end Portage
